import Mathlib

/-!
Shallow embedding of the bouncing-ball animation in `src/src/App.tsx`.

Numbers (JavaScript `number`) are modelled as rationals `ℚ`.  The per-frame
update `updateBalls`, the initializer `initializeBalls` and the color picker
`getRandomColor` are translated directly from the source; `Math.random()`
draws are passed in explicitly as parameters constrained to `[0, 1)` where
a claim needs that range.
-/

/-- Embedding of the `Ball` interface of `src/src/App.tsx`: identity,
position, velocity, radius and display color.  The color is an
`Option String` because JavaScript array indexing can produce `undefined`. -/
structure Ball where
  id : Nat
  x : ℚ
  y : ℚ
  vx : ℚ
  vy : ℚ
  radius : ℚ
  color : Option String

/-- Embedding of `const BALL_COUNT = 20`. -/
def BALL_COUNT : Nat := 20

/-- Embedding of `const BALL_RADIUS = 12`. -/
def BALL_RADIUS : ℚ := 12

/-- Embedding of `const SPEED_MULTIPLIER = 2`. -/
def SPEED_MULTIPLIER : ℚ := 2

/-- Embedding of the fixed palette inside `getRandomColor`. -/
def colors : List String :=
  ["#FF6B6B", "#4ECDC4", "#45B7D1", "#96CEB4", "#FECA57",
   "#FF9FF3", "#54A0FF", "#5F27CD", "#00D2D3", "#FF9F43"]

/-- Embedding of `getRandomColor`: `colors[Math.floor(r * colors.length)]`
where `r` stands for the `Math.random()` draw.  Out-of-range indexing is
JavaScript `undefined`, modelled as `none`. -/
def getRandomColor (r : ℚ) : Option String :=
  colors.get? (Int.toNat ⌊r * (colors.length : ℚ)⌋)

/-- One ball's worth of `Math.random()` draws consumed by `initializeBalls`:
position draws `rx`, `ry`, velocity draws `rvx`, `rvy`, and the color draw
`rc` used inside `getRandomColor`. -/
structure Draws where
  rx : ℚ
  ry : ℚ
  rvx : ℚ
  rvy : ℚ
  rc : ℚ

/-- Embedding of `initializeBalls`: for each index `i < BALL_COUNT` the
source pushes a ball with
`x = Math.random() * (canvas.width - BALL_RADIUS * 2) + BALL_RADIUS`,
`y` likewise with the height, `vx = (Math.random() - 0.5) * SPEED_MULTIPLIER`,
`vy` likewise, `radius = BALL_RADIUS` and a random palette color. -/
def initializeBalls (width height : ℚ) (d : Nat → Draws) : List Ball :=
  (List.range BALL_COUNT).map fun i =>
    { id := i
      x := (d i).rx * (width - BALL_RADIUS * 2) + BALL_RADIUS
      y := (d i).ry * (height - BALL_RADIUS * 2) + BALL_RADIUS
      vx := ((d i).rvx - 1/2) * SPEED_MULTIPLIER
      vy := ((d i).rvy - 1/2) * SPEED_MULTIPLIER
      radius := BALL_RADIUS
      color := getRandomColor (d i).rc }

/-- Embedding of the x-axis wall bounce of `updateBalls` (applied after the
position increment): `if (ball.x <= ball.radius || ball.x >= canvas.width -
ball.radius) { ball.vx = -ball.vx; ball.x = Math.max(ball.radius,
Math.min(canvas.width - ball.radius, ball.x)); }`. -/
def updateX (width : ℚ) (b : Ball) : Ball :=
  if b.x ≤ b.radius ∨ b.x ≥ width - b.radius then
    { b with vx := -b.vx, x := max b.radius (min (width - b.radius) b.x) }
  else b

/-- Embedding of the y-axis wall bounce of `updateBalls`, symmetric to
`updateX` with the canvas height. -/
def updateY (height : ℚ) (b : Ball) : Ball :=
  if b.y ≤ b.radius ∨ b.y ≥ height - b.radius then
    { b with vy := -b.vy, y := max b.radius (min (height - b.radius) b.y) }
  else b

/-- Embedding of the per-ball body of `updateBalls`: first
`ball.x += ball.vx; ball.y += ball.vy`, then the x-axis bounce, then the
y-axis bounce, in the source order. -/
def updateBall (width height : ℚ) (b : Ball) : Ball :=
  updateY height (updateX width { b with x := b.x + b.vx, y := b.y + b.vy })

/-- Embedding of `updateBalls`: the source mutates every ball of
`ballsRef.current` in place via `forEach`; each ball depends only on its own
prior state, so the whole step is the map of the per-ball step. -/
def updateBalls (width height : ℚ) (balls : List Ball) : List Ball :=
  balls.map (updateBall width height)

/-- Modelled from the spec: clamping a value into the interval `[lo, hi]`. -/
def clampInto (lo hi v : ℚ) : ℚ := max lo (min hi v)

/-- Modelled from the spec's wording of one per-particle step: first
`x += vx` and `y += vy`; then, if the new x ≤ radius or new x ≥ width −
radius, negate vx and clamp x into `[radius, width − radius]`; then the same
rule applied independently to the y-axis with the height. -/
def stepSpec (width height : ℚ) (b : Ball) : Ball :=
  { b with
    x := if b.x + b.vx ≤ b.radius ∨ b.x + b.vx ≥ width - b.radius then
      clampInto b.radius (width - b.radius) (b.x + b.vx) else b.x + b.vx
    vx := if b.x + b.vx ≤ b.radius ∨ b.x + b.vx ≥ width - b.radius then
      -b.vx else b.vx
    y := if b.y + b.vy ≤ b.radius ∨ b.y + b.vy ≥ height - b.radius then
      clampInto b.radius (height - b.radius) (b.y + b.vy) else b.y + b.vy
    vy := if b.y + b.vy ≤ b.radius ∨ b.y + b.vy ≥ height - b.radius then
      -b.vy else b.vy }

/-- Concrete draw sequence with every draw zero, used by witnesses. -/
def d0 : Nat → Draws := fun _ => ⟨0, 0, 0, 0, 0⟩

/-- Concrete interior ball with a large velocity: the counterexample input
for the claim that interior particles always move freely. -/
def c3ball : Ball := ⟨0, 200, 150, 300, 0, 12, some "#FF6B6B"⟩

/-- Concrete ball from the spec's scenario: position (5, 150), velocity
(−3, 0), radius 12. -/
def c4ball : Ball := ⟨0, 5, 150, -3, 0, 12, some "#FF6B6B"⟩

/-- Concrete well-inside ball used by the bounds witness. -/
def c2ball : Ball := ⟨0, 100, 100, 7, -5, 12, some "#FF6B6B"⟩

/-- Concrete ball inside a degenerate (too small) viewport. -/
def degBall : Ball := ⟨0, 5, 5, 0, 0, 12, some "#FF6B6B"⟩

/-- Concrete draw sequence whose velocity draws are exactly 1/2, the
counterexample input for the claim that velocities are never zero. -/
def dHalf : Nat → Draws := fun _ => ⟨0, 0, 1/2, 1/2, 0⟩

/-- The first ball produced by `initializeBalls 400 300 d0`, written out. -/
def ball0 : Ball := ⟨0, 12, 12, -1, -1, 12, some "#FF6B6B"⟩

theorem updateX_frame (W : ℚ) (b : Ball) :
    (updateX W b).id = b.id ∧ (updateX W b).y = b.y ∧
    (updateX W b).vy = b.vy ∧ (updateX W b).radius = b.radius ∧
    (updateX W b).color = b.color := by
  unfold updateX; split <;> exact ⟨rfl, rfl, rfl, rfl, rfl⟩

theorem updateY_frame (H : ℚ) (b : Ball) :
    (updateY H b).id = b.id ∧ (updateY H b).x = b.x ∧
    (updateY H b).vx = b.vx ∧ (updateY H b).radius = b.radius ∧
    (updateY H b).color = b.color := by
  unfold updateY; split <;> exact ⟨rfl, rfl, rfl, rfl, rfl⟩

theorem updateX_x (W : ℚ) (b : Ball) :
    (updateX W b).x = if b.x ≤ b.radius ∨ b.x ≥ W - b.radius
      then max b.radius (min (W - b.radius) b.x) else b.x := by
  unfold updateX; split_ifs <;> rfl

theorem updateX_vx (W : ℚ) (b : Ball) :
    (updateX W b).vx = if b.x ≤ b.radius ∨ b.x ≥ W - b.radius
      then -b.vx else b.vx := by
  unfold updateX; split_ifs <;> rfl

theorem updateY_y (H : ℚ) (b : Ball) :
    (updateY H b).y = if b.y ≤ b.radius ∨ b.y ≥ H - b.radius
      then max b.radius (min (H - b.radius) b.y) else b.y := by
  unfold updateY; split_ifs <;> rfl

theorem updateY_vy (H : ℚ) (b : Ball) :
    (updateY H b).vy = if b.y ≤ b.radius ∨ b.y ≥ H - b.radius
      then -b.vy else b.vy := by
  unfold updateY; split_ifs <;> rfl

theorem updateX_x_bounds (W : ℚ) (b : Ball) (h : 2 * b.radius ≤ W) :
    b.radius ≤ (updateX W b).x ∧ (updateX W b).x ≤ W - b.radius := by
  rw [updateX_x]
  split_ifs with hc
  · exact ⟨le_max_left _ _, max_le (by linarith) (min_le_left _ _)⟩
  · push_neg at hc
    exact ⟨le_of_lt hc.1, le_of_lt hc.2⟩

theorem updateY_y_bounds (H : ℚ) (b : Ball) (h : 2 * b.radius ≤ H) :
    b.radius ≤ (updateY H b).y ∧ (updateY H b).y ≤ H - b.radius := by
  rw [updateY_y]
  split_ifs with hc
  · exact ⟨le_max_left _ _, max_le (by linarith) (min_le_left _ _)⟩
  · push_neg at hc
    exact ⟨le_of_lt hc.1, le_of_lt hc.2⟩

theorem updateBall_frame (W H : ℚ) (b : Ball) :
    (updateBall W H b).id = b.id ∧ (updateBall W H b).radius = b.radius ∧
    (updateBall W H b).color = b.color := by
  unfold updateBall
  refine ⟨?_, ?_, ?_⟩
  · rw [(updateY_frame H _).1]
    exact (updateX_frame W _).1
  · rw [(updateY_frame H _).2.2.2.1]
    exact (updateX_frame W _).2.2.2.1
  · rw [(updateY_frame H _).2.2.2.2]
    exact (updateX_frame W _).2.2.2.2

theorem updateBall_bounds (W H : ℚ) (b : Ball)
    (hW : 2 * b.radius ≤ W) (hH : 2 * b.radius ≤ H) :
    b.radius ≤ (updateBall W H b).x ∧ (updateBall W H b).x ≤ W - b.radius ∧
    b.radius ≤ (updateBall W H b).y ∧ (updateBall W H b).y ≤ H - b.radius := by
  have hx := updateX_x_bounds W { b with x := b.x + b.vx, y := b.y + b.vy } hW
  have hy := updateY_y_bounds H
    (updateX W { b with x := b.x + b.vx, y := b.y + b.vy })
    (by rw [(updateX_frame W _).2.2.2.1]; exact hH)
  unfold updateBall
  refine ⟨?_, ?_, ?_, ?_⟩
  · rw [(updateY_frame H _).2.1]
    exact hx.1
  · rw [(updateY_frame H _).2.1]
    exact hx.2
  · have h3 := hy.1
    rw [(updateX_frame W _).2.2.2.1] at h3
    exact h3
  · have h4 := hy.2
    rw [(updateX_frame W _).2.2.2.1] at h4
    exact h4

theorem updateBall_eq_stepSpec (W H : ℚ) (b : Ball) :
    updateBall W H b = stepSpec W H b := by
  rcases b with ⟨i, x, y, vx, vy, r, c⟩
  unfold updateBall updateX updateY stepSpec clampInto
  dsimp only
  split_ifs <;> rfl

/-- C1: for every particle, one simulation step computes exactly: first
x += vx and y += vy; then, if the new x ≤ radius or new x ≥ width − radius,
vx is negated and x is clamped into [radius, width − radius]; then the same
rule is applied independently to y with height; particles are updated
independently of one another (the step is the per-particle map of the
spec's per-particle rule). -/
theorem updateBalls_matches_spec (W H : ℚ) (l : List Ball) :
    updateBalls W H l = l.map (stepSpec W H) := by
  unfold updateBalls
  congr 1
  funext b
  exact updateBall_eq_stepSpec W H b

/-- C2: for every particle and every step (any pre-step position and
velocity, viewport width ≥ 2×radius and height ≥ 2×radius), after the step
radius ≤ x ≤ width − radius and radius ≤ y ≤ height − radius. -/
theorem updateBalls_position_bounded (W H : ℚ) (l : List Ball)
    (h : ∀ b ∈ l, 2 * b.radius ≤ W ∧ 2 * b.radius ≤ H) :
    ∀ b ∈ updateBalls W H l,
      b.radius ≤ b.x ∧ b.x ≤ W - b.radius ∧
      b.radius ≤ b.y ∧ b.y ≤ H - b.radius := by
  intro b hb
  rcases List.mem_map.mp hb with ⟨a, ha, rfl⟩
  have hr := (updateBall_frame W H a).2.1
  have hbd := updateBall_bounds W H a (h a ha).1 (h a ha).2
  rw [hr]
  exact hbd

theorem updateBalls_position_bounded_witness :
    (updateBall 400 300 c2ball).radius ≤ (updateBall 400 300 c2ball).x ∧
    (updateBall 400 300 c2ball).x ≤ 400 - (updateBall 400 300 c2ball).radius ∧
    (updateBall 400 300 c2ball).radius ≤ (updateBall 400 300 c2ball).y ∧
    (updateBall 400 300 c2ball).y ≤ 300 - (updateBall 400 300 c2ball).radius :=
  updateBalls_position_bounded 400 300 [c2ball]
    (by
      intro b hb
      rw [List.mem_singleton] at hb
      subst hb
      constructor <;> norm_num [c2ball])
    (updateBall 400 300 c2ball)
    (List.mem_map.mpr ⟨c2ball, List.mem_singleton.mpr rfl, rfl⟩)

/-- C8: for every particle and every step, the simulation step leaves the
particle's id, radius, and color unchanged; only position and velocity
components may change. -/
theorem step_preserves_identity (W H : ℚ) (b : Ball) :
    (updateBall W H b).id = b.id ∧ (updateBall W H b).radius = b.radius ∧
    (updateBall W H b).color = b.color :=
  updateBall_frame W H b

/-- C9: for every particle and every step, the absolute value of each
velocity component is preserved: |vx| and |vy| after the step equal |vx|
and |vy| before it (reflection only flips signs, never changes speed). -/
theorem step_preserves_speed (W H : ℚ) (b : Ball) :
    |(updateBall W H b).vx| = |b.vx| ∧ |(updateBall W H b).vy| = |b.vy| := by
  unfold updateBall
  constructor
  · rw [(updateY_frame H _).2.2.1, updateX_vx]
    split_ifs <;> simp [abs_neg]
  · rw [updateY_vy, (updateX_frame W _).2.2.1]
    split_ifs <;> simp [abs_neg]

/-- C3 counterexample: the ball at (200, 150) with velocity (300, 0) is
strictly interior in a 400×300 viewport (12 < 200 < 388, 12 < 150 < 288),
yet one step does not move it by (vx, vy): the increment carries it past
the right wall, so x is clamped to 388 (not 500) and vx is negated. -/
theorem interior_any_velocity_counterexample :
    (c3ball.radius < c3ball.x ∧ c3ball.x < 400 - c3ball.radius ∧
     c3ball.radius < c3ball.y ∧ c3ball.y < 300 - c3ball.radius) ∧
    ¬ ((updateBall 400 300 c3ball).x = c3ball.x + c3ball.vx ∧
       (updateBall 400 300 c3ball).vx = c3ball.vx) := by
  constructor
  · norm_num [c3ball]
  · intro hcon
    have hx := hcon.1
    have hev : (updateBall 400 300 c3ball).x = 388 := by
      norm_num [updateBall, updateX, updateY, c3ball, min_def, max_def]
    rw [hev] at hx
    norm_num [c3ball] at hx

/-- C3 amended: for every particle whose position after the increment is
strictly interior (radius < x + vx < width − radius and
radius < y + vy < height − radius), one step changes position by exactly
(vx, vy) and leaves the velocity unchanged. -/
theorem interior_after_increment_step (W H : ℚ) (b : Ball)
    (hx1 : b.radius < b.x + b.vx) (hx2 : b.x + b.vx < W - b.radius)
    (hy1 : b.radius < b.y + b.vy) (hy2 : b.y + b.vy < H - b.radius) :
    (updateBall W H b).x = b.x + b.vx ∧ (updateBall W H b).y = b.y + b.vy ∧
    (updateBall W H b).vx = b.vx ∧ (updateBall W H b).vy = b.vy := by
  have hux : updateX W { b with x := b.x + b.vx, y := b.y + b.vy } =
      { b with x := b.x + b.vx, y := b.y + b.vy } := by
    unfold updateX
    rw [if_neg]
    push_neg
    exact ⟨hx1, hx2⟩
  have huy : updateY H { b with x := b.x + b.vx, y := b.y + b.vy } =
      { b with x := b.x + b.vx, y := b.y + b.vy } := by
    unfold updateY
    rw [if_neg]
    push_neg
    exact ⟨hy1, hy2⟩
  unfold updateBall
  rw [hux, huy]
  exact ⟨rfl, rfl, rfl, rfl⟩

theorem interior_after_increment_step_witness :
    (updateBall 400 300 c2ball).x = c2ball.x + c2ball.vx ∧
    (updateBall 400 300 c2ball).y = c2ball.y + c2ball.vy ∧
    (updateBall 400 300 c2ball).vx = c2ball.vx ∧
    (updateBall 400 300 c2ball).vy = c2ball.vy :=
  interior_after_increment_step 400 300 c2ball (by norm_num [c2ball])
    (by norm_num [c2ball]) (by norm_num [c2ball]) (by norm_num [c2ball])

/-- C4: for every particle whose x-position after the increment is at or
past the left wall (x + vx ≤ radius) with vx < 0 and y strictly interior,
the step flips the sign of vx and clamps x to the radius. -/
theorem left_wall_reflects (W H : ℚ) (b : Ball)
    (hx : b.x + b.vx ≤ b.radius) (hvx : b.vx < 0)
    (hy1 : b.radius < b.y) (hy2 : b.y < H - b.radius) :
    (updateBall W H b).x = b.radius ∧ (updateBall W H b).vx = -b.vx := by
  unfold updateBall
  constructor
  · rw [(updateY_frame H _).2.1, updateX_x]
    dsimp only
    rw [if_pos (Or.inl hx)]
    exact max_eq_left (le_trans (min_le_right _ _) hx)
  · rw [(updateY_frame H _).2.2.1, updateX_vx]
    dsimp only
    rw [if_pos (Or.inl hx)]

theorem left_wall_reflects_witness :
    (updateBall 400 300 c4ball).x = 12 ∧ (updateBall 400 300 c4ball).vx = 3 := by
  have h := left_wall_reflects 400 300 c4ball (by norm_num [c4ball])
    (by norm_num [c4ball]) (by norm_num [c4ball]) (by norm_num [c4ball])
  norm_num [c4ball] at h
  exact ⟨h.1, h.2⟩

/-- C5: re-initialization always produces exactly BALL_COUNT particles, and
for viewport width ≥ 2×radius and height ≥ 2×radius every produced particle
satisfies radius ≤ x ≤ width − radius and radius ≤ y ≤ height − radius, for
every possible value of the random draws (each in [0, 1)). -/
theorem initializeBalls_count_and_bounds (W H : ℚ) (d : Nat → Draws)
    (hW : 2 * BALL_RADIUS ≤ W) (hH : 2 * BALL_RADIUS ≤ H)
    (hd : ∀ i, 0 ≤ (d i).rx ∧ (d i).rx < 1 ∧ 0 ≤ (d i).ry ∧ (d i).ry < 1) :
    (initializeBalls W H d).length = BALL_COUNT ∧
    ∀ b ∈ initializeBalls W H d,
      b.radius ≤ b.x ∧ b.x ≤ W - b.radius ∧
      b.radius ≤ b.y ∧ b.y ≤ H - b.radius := by
  constructor
  · simp [initializeBalls]
  · intro b hb
    rcases List.mem_map.mp hb with ⟨i, hi, rfl⟩
    rcases hd i with ⟨h1, h2, h3, h4⟩
    refine ⟨?_, ?_, ?_, ?_⟩ <;> dsimp only
    · have hnn : 0 ≤ (d i).rx * (W - BALL_RADIUS * 2) :=
        mul_nonneg h1 (by linarith)
      linarith
    · have hub : (d i).rx * (W - BALL_RADIUS * 2) ≤ W - BALL_RADIUS * 2 :=
        mul_le_of_le_one_left (by linarith) (le_of_lt h2)
      linarith
    · have hnn : 0 ≤ (d i).ry * (H - BALL_RADIUS * 2) :=
        mul_nonneg h3 (by linarith)
      linarith
    · have hub : (d i).ry * (H - BALL_RADIUS * 2) ≤ H - BALL_RADIUS * 2 :=
        mul_le_of_le_one_left (by linarith) (le_of_lt h4)
      linarith

theorem initializeBalls_count_and_bounds_witness :
    (initializeBalls 400 300 d0).length = BALL_COUNT :=
  (initializeBalls_count_and_bounds 400 300 d0 (by norm_num [BALL_RADIUS])
    (by norm_num [BALL_RADIUS]) (fun i => by norm_num [d0])).1

/-- C6 counterexample: a velocity draw of exactly 1/2 (a possible value of
`Math.random()`, which ranges over [0, 1)) makes the initial velocity
components exactly zero: every ball of `initializeBalls 400 300 dHalf` has
vx = (1/2 − 1/2) * SPEED_MULTIPLIER = 0, refuting the claim. -/
theorem zero_velocity_possible :
    (0 ≤ ((1:ℚ)/2) ∧ ((1:ℚ)/2) < 1) ∧
    ∃ b ∈ initializeBalls 400 300 dHalf, b.vx = 0 ∧ b.vy = 0 := by
  refine ⟨⟨by norm_num, by norm_num⟩, ?_⟩
  simp only [initializeBalls]
  refine ⟨_, List.mem_map.mpr ⟨0, ?_, rfl⟩, ?_, ?_⟩
  · simp [BALL_COUNT]
  · norm_num [dHalf, SPEED_MULTIPLIER]
  · norm_num [dHalf, SPEED_MULTIPLIER]

/-- C6 amended: no initial velocity component is zero unless the
corresponding random draw is exactly 1/2; for every draw sequence whose
velocity draws avoid 1/2, every initialized particle has vx ≠ 0 and
vy ≠ 0. -/
theorem nonzero_velocity_off_half (W H : ℚ) (d : Nat → Draws)
    (hd : ∀ i, (d i).rvx ≠ 1/2 ∧ (d i).rvy ≠ 1/2) :
    ∀ b ∈ initializeBalls W H d, b.vx ≠ 0 ∧ b.vy ≠ 0 := by
  intro b hb
  rcases List.mem_map.mp hb with ⟨i, hi, rfl⟩
  rcases hd i with ⟨h1, h2⟩
  constructor <;> dsimp only
  · intro h
    rcases mul_eq_zero.mp h with h | h
    · exact h1 (sub_eq_zero.mp h)
    · exact absurd h (by norm_num [SPEED_MULTIPLIER])
  · intro h
    rcases mul_eq_zero.mp h with h | h
    · exact h2 (sub_eq_zero.mp h)
    · exact absurd h (by norm_num [SPEED_MULTIPLIER])

theorem nonzero_velocity_off_half_witness :
    ball0.vx ≠ 0 ∧ ball0.vy ≠ 0 :=
  nonzero_velocity_off_half 400 300 d0
    (fun i => by constructor <;> norm_num [d0]) ball0
    (by
      simp only [initializeBalls]
      refine List.mem_map.mpr ⟨0, by simp [BALL_COUNT], ?_⟩
      norm_num [d0, ball0, BALL_RADIUS, SPEED_MULTIPLIER, getRandomColor,
        colors, Ball.mk.injEq])

/-- C7: if the width is smaller than 2×radius, every particle that triggers
the x-boundary branch has its x clamped to the single point radius (the
clamp `max radius (min (width − radius) x)` always returns radius when
width − radius < radius), and symmetrically for the height and y; the step
is a total function, so it completes without error. -/
theorem degenerate_viewport_clamps (W H : ℚ) (b : Ball) :
    (W < 2 * b.radius →
      (b.x + b.vx ≤ b.radius ∨ b.x + b.vx ≥ W - b.radius) →
      (updateBall W H b).x = b.radius) ∧
    (H < 2 * b.radius →
      (b.y + b.vy ≤ b.radius ∨ b.y + b.vy ≥ H - b.radius) →
      (updateBall W H b).y = b.radius) := by
  constructor
  · intro hW htr
    unfold updateBall
    rw [(updateY_frame H _).2.1, updateX_x]
    dsimp only
    rw [if_pos htr]
    rcases htr with h | h
    · exact max_eq_left (le_trans (min_le_right _ _) h)
    · exact max_eq_left (le_trans (min_le_left _ _) (by linarith))
  · intro hH htr
    unfold updateBall
    rw [updateY_y, (updateX_frame W _).2.1, (updateX_frame W _).2.2.2.1]
    dsimp only
    rw [if_pos htr]
    rcases htr with h | h
    · exact max_eq_left (le_trans (min_le_right _ _) h)
    · exact max_eq_left (le_trans (min_le_left _ _) (by linarith))

theorem degenerate_viewport_clamps_witness :
    (updateBall 10 10 degBall).x = 12 ∧ (updateBall 10 10 degBall).y = 12 := by
  have h := degenerate_viewport_clamps 10 10 degBall
  constructor
  · have hx := h.1 (by norm_num [degBall]) (by norm_num [degBall])
    simpa [degBall] using hx
  · have hy := h.2 (by norm_num [degBall]) (by norm_num [degBall])
    simpa [degBall] using hy

theorem getRandomColor_mem (r : ℚ) (h0 : 0 ≤ r) (h1 : r < 1) :
    ∃ c, getRandomColor r = some c ∧ c ∈ colors := by
  have hlt : Int.toNat ⌊r * (colors.length : ℚ)⌋ < colors.length := by
    have hlen : (0:ℚ) < (colors.length : ℚ) := by norm_num [colors]
    have h2 : r * (colors.length : ℚ) < (colors.length : ℚ) :=
      mul_lt_of_lt_one_left hlen h1
    have h3 : ⌊r * (colors.length : ℚ)⌋ < (colors.length : ℤ) := by
      apply Int.floor_lt.mpr
      exact_mod_cast h2
    have h4 : 0 ≤ ⌊r * (colors.length : ℚ)⌋ :=
      Int.floor_nonneg.mpr (mul_nonneg h0 (le_of_lt hlen))
    omega
  exact ⟨colors.get ⟨_, hlt⟩, List.get?_eq_get hlt, List.get_mem _ _ _⟩

/-- C10: for every possible value of the random draw in [0, 1), the color
picker indexes within the bounds of the 10-element palette and returns one
of the listed palette colors (never undefined); hence every initialized
particle's color is a palette member (when all color draws are in [0, 1)). -/
theorem color_picker_safe (r W H : ℚ) (d : Nat → Draws)
    (h0 : 0 ≤ r) (h1 : r < 1)
    (hd : ∀ i, 0 ≤ (d i).rc ∧ (d i).rc < 1) :
    (∃ c, getRandomColor r = some c ∧ c ∈ colors) ∧
    ∀ b ∈ initializeBalls W H d, ∃ c, b.color = some c ∧ c ∈ colors := by
  constructor
  · exact getRandomColor_mem r h0 h1
  · intro b hb
    rcases List.mem_map.mp hb with ⟨i, hi, rfl⟩
    exact getRandomColor_mem (d i).rc (hd i).1 (hd i).2

theorem color_picker_safe_witness :
    ∃ c, getRandomColor 0 = some c ∧ c ∈ colors :=
  (color_picker_safe 0 400 300 d0 (by norm_num) (by norm_num)
    (fun i => by norm_num [d0])).1
